import Mathlib

/-!
Verification development for the reminder-bot scheduling core (`src/main.py`).

The embedding models:
* naive local `datetime` values at microsecond precision as `Nat`
  (microseconds since an arbitrary epoch midnight);
* the two command regexes of `parse_reminder_text` as executable matchers
  over `List Char`, reproducing the semantics of `re.search` with
  `re.IGNORECASE` for these particular patterns (leftmost match, lazy
  `(.*?)` message capture, greedy digit runs, optional trailing `s`);
* the in-memory reminder store and the due partition of `check_reminders`;
* the outbound delivery of `send_reminder_message`;
* the request handler `a2a_endpoint`.

Fallible Python code (a `datetime.replace` that can raise `ValueError`, an
attribute access on `None` that raises `AttributeError`) is modelled with
`Except`.
-/

/-! ## Time model

`datetime` values are naive local timestamps with microsecond precision.
A value is the number of microseconds since the midnight starting some
fixed epoch day; `v / dayUsec` is the date, `v % dayUsec` the time of day.
-/

/-- Microseconds in one day (`timedelta(days=1)`). -/
def dayUsec : Nat := 86400000000

/-- Microseconds in one minute (`timedelta(minutes=1)`). -/
def minuteUsec : Nat := 60000000

/-- Microseconds in one hour. -/
def hourUsec : Nat := 3600000000

/-- The last representable `datetime` instant, `datetime.max` =
9999-12-31 23:59:59.999999, as microseconds with day 0 = 0001-01-01
(`datetime.min`): `date(9999, 12, 31).toordinal() = 3652059`, so the
valid instants are exactly `0 ≤ v ≤ 3652059 * dayUsec - 1`.  Arithmetic
that would land past this instant raises `OverflowError` in Python. -/
def datetimeMaxUsec : Nat := 3652059 * 86400000000 - 1

/-- `now.replace(hour=h, minute=m, second=0, microsecond=0)`: same date as
`now`, time of day `h:m:00.000000`.  (Validity of `h` and `m` is checked by
the caller model, mirroring the `ValueError` that `replace` raises.) -/
def replaceHM (now : Nat) (h m : Nat) : Nat :=
  (now / dayUsec) * dayUsec + h * hourUsec + m * minuteUsec

/-- The fire-time computation of pattern B in `parse_reminder_text`
(`src/main.py` lines 101-107): today at `h:m`, advanced by one day exactly
when that instant is strictly before `now` (`if reminder_time < now`). -/
def patternBFire (now : Nat) (h m : Nat) : Nat :=
  let t := replaceHM now h m
  if t < now then t + dayUsec else t

/-! ## Character classes

Python `\s`, `\d` and `str.strip` restricted to their ASCII behaviour
(the commands in scope are ASCII; full Unicode classes would only enlarge
the character sets, which no claim exercises). -/

/-- Python regex `\s` (ASCII part): space, tab, newline, CR, VT, FF. -/
def pySpace (c : Char) : Bool :=
  c = ' ' || c = '\t' || c = '\n' || c = '\r' || c = '\x0b' || c = '\x0c'

/-- Python regex `\d` (ASCII part): the characters `0`-`9`. -/
def pyDigit (c : Char) : Bool :=
  48 ≤ c.toNat && c.toNat ≤ 57

/-- Numeric value of one ASCII digit character. -/
def digitVal (c : Char) : Nat := c.toNat - 48

/-- `int(s)` on a string of ASCII digits. -/
def digitsVal (ds : List Char) : Nat :=
  ds.foldl (fun acc c => acc * 10 + digitVal c) 0

/-! ## Regex machinery for the two patterns

Pattern A: `/remindme\s+"(.*?)"\s+in\s+(\d+)\s+minutes?`
Pattern B: `/remindme\s+"(.*?)"\s+at\s+(\d{1,2}):(\d{2})`

both compiled with `re.IGNORECASE` and run with `re.search` (leftmost
match over all start positions).  The matchers below return the remaining
input after the consumed part, or the captured groups. -/

/-- Match a literal word case-insensitively (`re.IGNORECASE`): the pattern
is given in lowercase and each input character is lowered before
comparison.  Returns the remaining input. -/
def matchLitCI : List Char → List Char → Option (List Char)
  | [], s => some s
  | _ :: _, [] => none
  | p :: ps, c :: cs => if c.toLower = p then matchLitCI ps cs else none

/-- Match `\s+` greedily: at least one `\s` character, then the maximal
run.  (In both patterns every `\s+` is followed by a non-`\s` element, so
maximal munch agrees with backtracking semantics.) -/
def matchSpaces1 : List Char → Option (List Char)
  | [] => none
  | c :: cs => if pySpace c then some (cs.dropWhile pySpace) else none

/-- Match `(\d+)` greedily: at least one digit, the maximal run; returns
the captured digits and the rest.  (In pattern A the run is followed by
`\s`, never a digit, so maximal munch is exact.) -/
def matchDigits1 (s : List Char) : Option (List Char × List Char) :=
  match s with
  | [] => none
  | c :: _ =>
      if pyDigit c then some (s.takeWhile pyDigit, s.dropWhile pyDigit) else none

/-- Match `(\d{1,2}):` with backtracking: prefer two digits followed by
`:`, else one digit followed by `:`.  Returns the hour value and the rest
after the colon. -/
def matchHour : List Char → Option (Nat × List Char)
  | c1 :: c2 :: rest2 =>
      if pyDigit c1 then
        if pyDigit c2 then
          -- greedy two digits need a following colon; backtracking to one
          -- digit would need `c2 = ':'`, impossible for a digit
          match rest2 with
          | c3 :: r => if c3 = ':' then some (digitVal c1 * 10 + digitVal c2, r) else none
          | [] => none
        else if c2 = ':' then some (digitVal c1, rest2) else none
      else none
  | _ => none

/-- Match `(\d{2})`: exactly two digit characters (anything may follow). -/
def matchTwoDigits : List Char → Option Nat
  | c1 :: c2 :: _ =>
      if pyDigit c1 && pyDigit c2 then some (digitVal c1 * 10 + digitVal c2)
      else none
  | _ => none

/-- The part of pattern A after the closing quote of the message:
`\s+in\s+(\d+)\s+minutes?`.  Returns the captured digit group.  The
trailing `s?` always succeeds and captures nothing, so it imposes no
constraint. -/
def matchTailA (s : List Char) : Option (List Char) :=
  (matchSpaces1 s).bind fun s1 =>
  (matchLitCI ['i', 'n'] s1).bind fun s2 =>
  (matchSpaces1 s2).bind fun s3 =>
  (matchDigits1 s3).bind fun dss =>
  (matchSpaces1 dss.2).bind fun s5 =>
  (matchLitCI ['m', 'i', 'n', 'u', 't', 'e'] s5).bind fun _ =>
  some dss.1

/-- The part of pattern B after the closing quote of the message:
`\s+at\s+(\d{1,2}):(\d{2})`.  Returns hour and minute values
(`int` of the captured groups). -/
def matchTailB (s : List Char) : Option (Nat × Nat) :=
  (matchSpaces1 s).bind fun s1 =>
  (matchLitCI ['a', 't'] s1).bind fun s2 =>
  (matchSpaces1 s2).bind fun s3 =>
  (matchHour s3).bind fun hs4 =>
  (matchTwoDigits hs4.2).bind fun m =>
  some (hs4.1, m)

/-- The lazy capture `(.*?)"` followed by a tail pattern: try the shortest
message first; at each candidate closing `"` run the tail, and on failure
extend the message by one `.` (which matches any character except `\n`).
Returns the captured message and the tail result. -/
def scanMsg (tail : List Char → Option α) : List Char → Option (List Char × α)
  | [] => none
  | c :: cs =>
      if c = '\"' then
        match tail cs with
        | some a => some ([], a)
        | none =>
            match scanMsg tail cs with
            | some (msg, a) => some (c :: msg, a)
            | none => none
      else if c = '\n' then none
      else
        match scanMsg tail cs with
        | some (msg, a) => some (c :: msg, a)
        | none => none

/-- One anchored attempt of pattern A at the current position:
`/remindme\s+"` then the lazy message then `matchTailA`. -/
def tryAtA (s : List Char) : Option (List Char × List Char) :=
  (matchLitCI ['/', 'r', 'e', 'm', 'i', 'n', 'd', 'm', 'e'] s).bind fun s1 =>
  (matchSpaces1 s1).bind fun s2 =>
  match s2 with
  | c :: s3 => if c = '\"' then scanMsg matchTailA s3 else none
  | [] => none

/-- One anchored attempt of pattern B at the current position. -/
def tryAtB (s : List Char) : Option (List Char × Nat × Nat) :=
  (matchLitCI ['/', 'r', 'e', 'm', 'i', 'n', 'd', 'm', 'e'] s).bind fun s1 =>
  (matchSpaces1 s1).bind fun s2 =>
  match s2 with
  | c :: s3 => if c = '\"' then scanMsg matchTailB s3 else none
  | [] => none

/-- `re.search` for pattern A: try every start position left to right,
return the first successful attempt (message group, digit group). -/
def searchA : List Char → Option (List Char × List Char)
  | [] => none
  | c :: cs =>
      match tryAtA (c :: cs) with
      | some r => some r
      | none => searchA cs

/-- `re.search` for pattern B: leftmost attempt wins. -/
def searchB : List Char → Option (List Char × Nat × Nat)
  | [] => none
  | c :: cs =>
      match tryAtB (c :: cs) with
      | some r => some r
      | none => searchB cs

/-! ## The parser (`parse_reminder_text`, `src/main.py` lines 80-109) -/

/-- Exceptions the modelled code can raise. -/
inductive PyErr
  | valueError
  | attributeError
  | overflowError
deriving DecidableEq, Repr

/-- `parse_reminder_text(text)` at parse-time `now`.

Pattern A first: on a match the fire time is
`datetime.now() + timedelta(minutes=N)`; when that instant would pass
`datetime.max` (year 9999) the addition raises `OverflowError` (for
astronomically large `N` the `timedelta` constructor itself raises
`OverflowError` first; both raise the same exception class, so one error
value models both), otherwise it succeeds with `now + N minutes`.
Otherwise pattern B: on a match, `now.replace(hour=h, minute=m, second=0,
microsecond=0)` raises `ValueError` when `h > 23` or `m > 59` (the regex
admits `\d{1,2}` hours and `\d{2}` minutes, so out-of-range values reach
`replace`); on valid values the fire time rolls one day forward exactly
when today at `h:m` is strictly before `now`.  (The one-day roll
`reminder_time += timedelta(days=1)` can overflow only when the host
clock already sits on the final representable day, 9999-12-31 — an
ambient-clock boundary no command input controls; the embedding leaves
`now` unconstrained and does not model it.)
No match at all returns `none` (the function returns `None`). -/
def parse_reminder_text (now : Nat) (text : List Char) :
    Except PyErr (Option (List Char × Nat)) :=
  match searchA text with
  | some (msg, ds) =>
      if now + digitsVal ds * minuteUsec ≤ datetimeMaxUsec then
        .ok (some (msg, now + digitsVal ds * minuteUsec))
      else .error .overflowError
  | none =>
      match searchB text with
      | some (msg, h, m) =>
          if h ≤ 23 ∧ m ≤ 59 then .ok (some (msg, patternBFire now h m))
          else .error .valueError
      | none => .ok none

/-! ## Reminder store and the due partition (`check_reminders`) -/

/-- One stored reminder: the tuple
`(reminder_time, message_text, notification_url, context_id)` appended to
the global `reminders` list (`src/main.py` line 77 and 245). -/
structure Reminder where
  fireAt : Nat
  text : List Char
  callbackUrl : List Char
  contextId : List Char
deriving DecidableEq, Repr

/-- The partition step of `check_reminders` (`src/main.py` lines 117-124):
`due_reminders = [r for r in reminders if r[0] <= now]` and
`reminders = [r for r in reminders if r[0] > now]`.
Returns (extracted due list, retained store). -/
def extractDue (now : Nat) (rs : List Reminder) : List Reminder × List Reminder :=
  (rs.filter (fun r => r.fireAt ≤ now), rs.filter (fun r => now < r.fireAt))

/-! ## Protocol models (the pydantic classes of `src/main.py`) -/

/-- `MessagePart.kind : Literal["text", "data", "file"]`. -/
inductive PartKind
  | text
  | data
  | file
deriving DecidableEq, Repr

/-- `MessagePart`: a part with a kind discriminator and optional text. -/
structure MessagePart where
  kind : PartKind
  text : Option (List Char)
deriving DecidableEq, Repr

/-- `A2AMessage`: role, ordered parts, message id (defaults to `""`). -/
structure A2AMessage where
  role : String
  parts : List MessagePart
  messageId : String
deriving DecidableEq, Repr

/-- `PushNotificationConfig`: the callback URL (and optional token). -/
structure PushNotificationConfig where
  url : List Char
  token : Option (List Char)
deriving DecidableEq, Repr

/-- `MessageConfiguration`: `blocking` flag and optional push config. -/
structure MessageConfiguration where
  blocking : Bool
  pushNotificationConfig : Option PushNotificationConfig
deriving DecidableEq, Repr

/-- `MessageParams`: the inbound message, context id and configuration. -/
structure MessageParams where
  message : A2AMessage
  contextId : List Char
  configuration : MessageConfiguration
deriving DecidableEq, Repr

/-- `JSONRPCRequest`: the inbound envelope (`jsonrpc` is fixed `"2.0"`,
`method` is one of the two accepted literals; both are schema-validated by
the boundary layer and never inspected by the handler). -/
structure JSONRPCRequest where
  id : String
  method : String
  params : MessageParams
deriving DecidableEq, Repr

/-- `TaskResult`: context id, status (always `"completed"` here) and the
agent reply message. -/
structure TaskResult where
  contextId : List Char
  status : String
  message : A2AMessage
deriving DecidableEq, Repr

/-- `JSONRPCResponse`: the immediate reply envelope. -/
structure JSONRPCResponse where
  id : String
  result : TaskResult
deriving DecidableEq, Repr

/-! ## Inbound handler (`a2a_endpoint`, `src/main.py` lines 213-271) -/

/-- `str.strip()` (ASCII whitespace): drop leading and trailing
whitespace. -/
def pyStrip (s : List Char) : List Char :=
  ((s.dropWhile pySpace).reverse.dropWhile pySpace).reverse

/-- The text-extraction loop of `a2a_endpoint` (lines 221-225): the first
part with `kind == "text"` yields `part.text.strip()`; if that part has
`text = None` the attribute access raises `AttributeError`; with no text
part the command string stays `""`. -/
def extract_text : List MessagePart → Except PyErr (List Char)
  | [] => .ok []
  | p :: ps =>
      if p.kind = PartKind.text then
        match p.text with
        | none => .error .attributeError
        | some t => .ok (pyStrip t)
      else extract_text ps

/-- The fixed usage-help reply (lines 254-258). -/
def helpText : List Char :=
  ("Sorry, I didn't quite get that. Please use a format like:\n• `/remindme \"Task\" in 10 minutes`\n• `/remindme \"Task\" at 16:30`").toList

/-- The explanatory failure reply for a missing callback URL (line 241). -/
def missingUrlText : List Char :=
  ("Sorry, I can't set a reminder. The chat configuration is missing my callback URL.").toList

/-- Decimal digits with explicit fuel (structural recursion, so that
concrete values reduce in the kernel).  The fuel is an upper bound on the
number; `decRepr` always supplies enough. -/
def decReprAux : Nat → Nat → List Char
  | 0, _ => []
  | fuel + 1, n =>
      if n < 10 then [Char.ofNat (48 + n)]
      else decReprAux fuel (n / 10) ++ [Char.ofNat (48 + n % 10)]

/-- Decimal digits of a natural number (used to render numbers inside
reply strings and to build canonical command inputs). -/
def decRepr (n : Nat) : List Char := decReprAux (n + 1) n

/-- Two-digit zero-padded rendering (strftime `%M`). -/
def twoDigits (n : Nat) : List Char :=
  if n < 10 then '0' :: decRepr n else decRepr n

/-- The confirmation time string of line 249,
`reminder_time.strftime("%-I:%M %p on %b %d")`: 12-hour clock hour without
leading zero, zero-padded minute, AM/PM.  The abstract `Nat` timeline
carries no calendar (dates are bare day indices), so the `%b %d` date
portion is rendered as the day index; no claim inspects this reply. -/
def timeStr (t : Nat) : List Char :=
  let h24 := (t % dayUsec) / hourUsec
  let h12 := if h24 % 12 = 0 then 12 else h24 % 12
  let ampm := if h24 < 12 then " AM on day " else " PM on day "
  decRepr h12 ++ (":").toList ++ twoDigits ((t % hourUsec) / minuteUsec)
    ++ ampm.toList ++ decRepr (t / dayUsec)

/-- The confirmation reply of line 250. -/
def confirmText (msg : List Char) (t : Nat) : List Char :=
  ("✅ Got it! I'll remind you to \"").toList ++ msg
    ++ ("\" at ").toList ++ timeStr t ++ (".").toList

/-- Build the immediate `JSONRPCResponse` (lines 260-271): agent message
with a single text part holding the reply, status `"completed"`, the
request id and context id echoed back. -/
def mkResponse (req : JSONRPCRequest) (reply : List Char) : JSONRPCResponse :=
  { id := req.id
    result :=
      { contextId := req.params.contextId
        status := "completed"
        message :=
          { role := "agent"
            parts := [{ kind := PartKind.text, text := some reply }]
            messageId := "" } } }

/-- `a2a_endpoint` (lines 213-271) at request-handling time `now`, acting
on the global `reminders` store.  Returns the response (or the exception
that escapes to the framework) together with the store after handling.

Control flow mirrors the source: extract the first text part; parse it;
on a parse match read `configuration.pushNotificationConfig.url` — an
absent `pushNotificationConfig` makes this attribute access raise
`AttributeError` *before* the `if not push_url` check runs — then either
reply that the callback URL is missing (empty URL string) or append the
reminder and confirm; on no parse match reply with the usage help.
A raised exception leaves the store untouched. -/
def a2a_endpoint (now : Nat) (req : JSONRPCRequest) (store : List Reminder) :
    Except PyErr JSONRPCResponse × List Reminder :=
  match extract_text req.params.message.parts with
  | .error e => (.error e, store)
  | .ok text =>
      match parse_reminder_text now text with
      | .error e => (.error e, store)
      | .ok (some (message_text, reminder_time)) =>
          match req.params.configuration.pushNotificationConfig with
          | none => (.error .attributeError, store)
          | some cfg =>
              if cfg.url = [] then
                (.ok (mkResponse req missingUrlText), store)
              else
                (.ok (mkResponse req (confirmText message_text reminder_time)),
                 store ++ [{ fireAt := reminder_time, text := message_text,
                             callbackUrl := cfg.url,
                             contextId := req.params.contextId }])
      | .ok none => (.ok (mkResponse req helpText), store)

/-! ## Delivery dispatcher (`send_reminder_message`, lines 137-176) -/

/-- `OutboundMessageParams`. -/
structure OutboundMessageParams where
  contextId : List Char
  message : A2AMessage
deriving DecidableEq, Repr

/-- `OutboundJSONRPCRequest`: the push envelope (`jsonrpc = "2.0"`,
freshly generated uuid4 id, `method = "message/push"`). -/
structure OutboundJSONRPCRequest where
  jsonrpc : String
  id : String
  method : String
  params : OutboundMessageParams
deriving DecidableEq, Repr

/-- The observable outbound POST: target URL, JSON body and timeout in
seconds (`timeout=10.0`). -/
structure PostRecord where
  url : List Char
  body : OutboundJSONRPCRequest
  timeoutSeconds : Nat
deriving DecidableEq, Repr

/-- Outcome of the HTTP transaction, supplied by the environment: a
response with a status code, or a transport failure (timeout, connection
error) raised as an exception inside the `try` block. -/
inductive PostOutcome
  | response (status : Nat)
  | transportError
deriving DecidableEq, Repr

/-- What `send_reminder_message` does after the transaction: every branch
only prints (logs); the `except Exception` clause swallows transport
failures, so nothing propagates to `check_reminders`. -/
inductive SendResult
  | clientMissing
  | delivered
  | pushRejected (status : Nat)
  | transportFailed
deriving DecidableEq, Repr

/-- The fixed attention marker prefixed to the reminder text
(line 150: `f"🔔 REMINDER: {message_text}"`). -/
def reminderMarker : List Char := ("🔔 REMINDER: ").toList

/-- `send_reminder_message(push_url, context_id, message_text)`
(lines 137-176).  `clientReady` models whether the global HTTP client is
initialized; `freshId` is the uuid4 generated for this call; `outcome` is
the environment-chosen result of the POST.  Returns the POST that was
attempted (if any), the logged result, and the reminder store, which the
function never touches — a failed delivery is not re-enqueued. -/
def send_reminder_message (clientReady : Bool) (freshId : String)
    (outcome : PostOutcome) (push_url context_id message_text : List Char)
    (store : List Reminder) :
    Option PostRecord × SendResult × List Reminder :=
  if clientReady = false then (none, .clientMissing, store)
  else
    let part : MessagePart :=
      { kind := PartKind.text, text := some (reminderMarker ++ message_text) }
    let msg : A2AMessage := { role := "agent", parts := [part], messageId := "" }
    let outParams : OutboundMessageParams := { contextId := context_id, message := msg }
    let envelope : OutboundJSONRPCRequest :=
      { jsonrpc := "2.0", id := freshId, method := "message/push", params := outParams }
    let post : PostRecord := { url := push_url, body := envelope, timeoutSeconds := 10 }
    match outcome with
    | .response s =>
        if 200 ≤ s ∧ s < 300 then (some post, .delivered, store)
        else (some post, .pushRejected s, store)
    | .transportError => (some post, .transportFailed, store)

/-! ## Character-class facts -/

/-- A `\s` character is one of the six ASCII whitespace characters. -/
theorem pySpace_elim {c : Char} (h : pySpace c = true) :
    c = ' ' ∨ c = '\t' ∨ c = '\n' ∨ c = '\r' ∨ c = '\x0b' ∨ c = '\x0c' := by
  simpa [pySpace, or_assoc] using h

/-- Digits are not whitespace. -/
theorem pyDigit_not_pySpace {c : Char} (hd : pyDigit c = true) : pySpace c = false := by
  cases hps : pySpace c with
  | false => rfl
  | true =>
      exfalso
      rcases pySpace_elim hps with h | h | h | h | h | h <;> subst h <;>
        exact absurd hd (by decide)

/-- The digit characters produced for `d < 10` are genuine digits with the
expected value, and are neither a quote nor a newline. -/
theorem digitChar_spec (d : Nat) (h : d < 10) :
    pyDigit (Char.ofNat (48 + d)) = true ∧ digitVal (Char.ofNat (48 + d)) = d ∧
      Char.ofNat (48 + d) ≠ '\"' ∧ Char.ofNat (48 + d) ≠ '\n' := by
  interval_cases d <;> refine ⟨by decide, by decide, by decide, by decide⟩

/-- `digitsVal` over a snoc. -/
theorem digitsVal_append (xs : List Char) (c : Char) :
    digitsVal (xs ++ [c]) = digitsVal xs * 10 + digitVal c := by
  simp [digitsVal, List.foldl_append]

/-- With enough fuel, `decReprAux` yields a nonempty string of digits,
none of them a quote or a newline, whose `int` value is the number. -/
theorem decReprAux_spec :
    ∀ fuel n, n < fuel →
      decReprAux fuel n ≠ [] ∧ (∀ c ∈ decReprAux fuel n, pyDigit c = true) ∧
        digitsVal (decReprAux fuel n) = n ∧
        (∀ c ∈ decReprAux fuel n, c ≠ '\"' ∧ c ≠ '\n') := by
  intro fuel
  induction fuel with
  | zero => intro n hn; omega
  | succ fuel ih =>
      intro n hn
      rw [decReprAux]
      by_cases h : n < 10
      · rw [if_pos h]
        have hd := digitChar_spec n h
        refine ⟨by simp, ?_, ?_, ?_⟩
        · intro c hc
          simp only [List.mem_singleton] at hc
          subst hc; exact hd.1
        · simp [digitsVal, hd.2.1]
        · intro c hc
          simp only [List.mem_singleton] at hc
          subst hc; exact ⟨hd.2.2.1, hd.2.2.2⟩
      · rw [if_neg h]
        have hdiv : n / 10 < fuel := by
          have h1 : n / 10 < n := Nat.div_lt_self (by omega) (by omega)
          omega
        obtain ⟨hne, hdig, hval, hcl⟩ := ih (n / 10) hdiv
        have hm := digitChar_spec (n % 10) (Nat.mod_lt _ (by omega))
        refine ⟨by simp, ?_, ?_, ?_⟩
        · intro c hc
          rcases List.mem_append.mp hc with hc | hc
          · exact hdig c hc
          · simp only [List.mem_singleton] at hc
            subst hc; exact hm.1
        · rw [digitsVal_append, hval, hm.2.1]; omega
        · intro c hc
          rcases List.mem_append.mp hc with hc | hc
          · exact hcl c hc
          · simp only [List.mem_singleton] at hc
            subst hc; exact ⟨hm.2.2.1, hm.2.2.2⟩

/-- `decRepr n` is a nonempty string of digits whose `int` value is `n`. -/
theorem decRepr_spec (n : Nat) :
    decRepr n ≠ [] ∧ (∀ c ∈ decRepr n, pyDigit c = true) ∧ digitsVal (decRepr n) = n := by
  obtain ⟨h1, h2, h3, _⟩ := decReprAux_spec (n + 1) n (by omega)
  exact ⟨h1, h2, h3⟩

/-- No character of `decRepr n` is a quote or a newline. -/
theorem decRepr_clean (n : Nat) :
    ∀ c ∈ decRepr n, c ≠ '\"' ∧ c ≠ '\n' :=
  (decReprAux_spec (n + 1) n (by omega)).2.2.2

/-! ## Matching canonical inputs -/

/-- `takeWhile`/`dropWhile` on a run of true elements followed by a false
element. -/
theorem takeDropWhile_run {α : Type} (p : α → Bool) (xs : List α) (c : α)
    (r : List α) (hxs : ∀ x ∈ xs, p x = true) (hc : p c = false) :
    (xs ++ c :: r).takeWhile p = xs ∧ (xs ++ c :: r).dropWhile p = c :: r := by
  induction xs with
  | nil => simp [List.takeWhile_cons, List.dropWhile_cons, hc]
  | cons x xs ihx =>
      have hx : p x = true := hxs x (List.mem_cons_self x xs)
      have ih := ihx fun y hy => hxs y (List.mem_cons_of_mem x hy)
      simp [List.takeWhile_cons, List.dropWhile_cons, hx, ih.1, ih.2]

/-- The lazy message capture on a clean message: if the message contains
no quote and no newline, the scan walks it verbatim and succeeds at the
real closing quote (where the tail succeeds). -/
theorem scanMsg_clean {α : Type} (tail : List Char → Option α) (X : List Char)
    (rest : List Char) (a : α) (hX : ∀ c ∈ X, c ≠ '\"' ∧ c ≠ '\n')
    (ht : tail rest = some a) :
    scanMsg tail (X ++ '\"' :: rest) = some (X, a) := by
  induction X with
  | nil => simp [scanMsg, ht]
  | cons c X ihX =>
      have hc := hX c (List.mem_cons_self c X)
      have ih := ihX fun y hy => hX y (List.mem_cons_of_mem c hy)
      simp [scanMsg, hc.1, hc.2, ih]

/-- The tail of pattern A succeeds on the canonical suffix
`␣in␣<ds>␣minutes`, capturing exactly the digit run `ds`. -/
theorem matchTailA_canonical (ds : List Char) (hne : ds ≠ [])
    (hds : ∀ c ∈ ds, pyDigit c = true) :
    matchTailA (' ' :: 'i' :: 'n' :: ' ' ::
      (ds ++ [' ', 'm', 'i', 'n', 'u', 't', 'e', 's'])) = some ds := by
  obtain ⟨d, ds', rfl⟩ : ∃ d ds', ds = d :: ds' := by
    cases ds with
    | nil => exact absurd rfl hne
    | cons d ds' => exact ⟨d, ds', rfl⟩
  have hd : pyDigit d = true := hds d (List.mem_cons_self d ds')
  have hdsp : pySpace d = false := pyDigit_not_pySpace hd
  have hrun := takeDropWhile_run pyDigit (d :: ds') ' '
    ['m', 'i', 'n', 'u', 't', 'e', 's'] hds (by decide)
  simp only [List.cons_append] at hrun
  have e1 : matchSpaces1 (' ' :: 'i' :: 'n' :: ' ' ::
      (d :: (ds' ++ [' ', 'm', 'i', 'n', 'u', 't', 'e', 's']))) =
      some ('i' :: 'n' :: ' ' :: (d :: (ds' ++ [' ', 'm', 'i', 'n', 'u', 't', 'e', 's']))) := rfl
  have e2 : matchLitCI ['i', 'n'] ('i' :: 'n' :: ' ' ::
      (d :: (ds' ++ [' ', 'm', 'i', 'n', 'u', 't', 'e', 's']))) =
      some (' ' :: (d :: (ds' ++ [' ', 'm', 'i', 'n', 'u', 't', 'e', 's']))) := rfl
  have e3 : matchSpaces1 (' ' :: (d :: (ds' ++ [' ', 'm', 'i', 'n', 'u', 't', 'e', 's']))) =
      some (d :: (ds' ++ [' ', 'm', 'i', 'n', 'u', 't', 'e', 's'])) := by
    show some (List.dropWhile pySpace (d :: (ds' ++ [' ', 'm', 'i', 'n', 'u', 't', 'e', 's']))) = _
    rw [List.dropWhile_cons]
    simp [hdsp]
  have e4 : matchDigits1 (d :: (ds' ++ [' ', 'm', 'i', 'n', 'u', 't', 'e', 's'])) =
      some (d :: ds', ' ' :: ['m', 'i', 'n', 'u', 't', 'e', 's']) := by
    show (if pyDigit d = true then
        some (List.takeWhile pyDigit (d :: (ds' ++ [' ', 'm', 'i', 'n', 'u', 't', 'e', 's'])),
          List.dropWhile pyDigit (d :: (ds' ++ [' ', 'm', 'i', 'n', 'u', 't', 'e', 's'])))
      else none) = _
    rw [if_pos hd, hrun.1, hrun.2]
  have e5 : matchSpaces1 (' ' :: ['m', 'i', 'n', 'u', 't', 'e', 's']) =
      some ['m', 'i', 'n', 'u', 't', 'e', 's'] := rfl
  have e6 : matchLitCI ['m', 'i', 'n', 'u', 't', 'e'] ['m', 'i', 'n', 'u', 't', 'e', 's'] =
      some ['s'] := rfl
  simp only [matchTailA, List.cons_append, e1, Option.some_bind, e2, e3, e4, e5, e6]

/-- The canonical pattern-A command `/remindme "<X>" in <ds> minutes`
as a character list. -/
def buildA (X ds : List Char) : List Char :=
  '/' :: 'r' :: 'e' :: 'm' :: 'i' :: 'n' :: 'd' :: 'm' :: 'e' :: ' ' :: '\"' ::
    (X ++ '\"' :: ' ' :: 'i' :: 'n' :: ' ' :: (ds ++ [' ', 'm', 'i', 'n', 'u', 't', 'e', 's']))

/-- Pattern A matches the canonical command at position 0, capturing the
message and digit group verbatim, provided the message contains no quote
and no newline. -/
theorem searchA_buildA (X ds : List Char) (hX : ∀ c ∈ X, c ≠ '\"' ∧ c ≠ '\n')
    (hne : ds ≠ []) (hds : ∀ c ∈ ds, pyDigit c = true) :
    searchA (buildA X ds) = some (X, ds) := by
  have htail := matchTailA_canonical ds hne hds
  have htry : tryAtA (buildA X ds) = some (X, ds) := by
    have h0 : tryAtA (buildA X ds) = scanMsg matchTailA
        (X ++ '\"' :: ' ' :: 'i' :: 'n' :: ' ' ::
          (ds ++ [' ', 'm', 'i', 'n', 'u', 't', 'e', 's'])) := rfl
    rw [h0]
    exact scanMsg_clean matchTailA X _ ds hX htail
  have hstep : searchA (buildA X ds) =
      match tryAtA (buildA X ds) with
      | some r => some r
      | none => searchA ('r' :: 'e' :: 'm' :: 'i' :: 'n' :: 'd' :: 'm' :: 'e' :: ' ' :: '\"' ::
          (X ++ '\"' :: ' ' :: 'i' :: 'n' :: ' ' ::
            (ds ++ [' ', 'm', 'i', 'n', 'u', 't', 'e', 's']))) := rfl
  rw [hstep, htry]

/-- **C5 (amended).**  For every `N ≥ 0` such that `now + N minutes` is
still representable (at or before `datetime.max`, 9999-12-31
23:59:59.999999) and every message `X` containing no double-quote and no
newline character, parsing the command `/remindme "X" in N minutes`
(leading slash required, `N` written in decimal) succeeds with message
exactly `X` and fire time exactly `now + N minutes`; past that bound the
addition raises `OverflowError` instead. -/
theorem c5_pattern_a_exact (now : Nat) (X : List Char) (n : Nat)
    (hX : ∀ c ∈ X, c ≠ '\"' ∧ c ≠ '\n')
    (hbound : now + n * minuteUsec ≤ datetimeMaxUsec) :
    parse_reminder_text now (buildA X (decRepr n)) =
      .ok (some (X, now + n * minuteUsec)) := by
  obtain ⟨hne, hdig, hval⟩ := decRepr_spec n
  have hA := searchA_buildA X (decRepr n) hX hne hdig
  simp [parse_reminder_text, hA, hval, hbound]

/-- Witness for C5 at `X = "call mom"`, `N = 10`, `now = 0`. -/
theorem c5_pattern_a_exact_witness :
    parse_reminder_text 0 (buildA ("call mom").toList (decRepr 10)) =
      .ok (some (("call mom").toList, 0 + 10 * minuteUsec)) :=
  c5_pattern_a_exact 0 (("call mom").toList) 10 (by decide) (by decide)

/-- **C5 counterexample.**  The claim as stated fails: the code's regexes
require a leading `/` (`/remindme`), so the claimed input
`remindme "call mom" in 10 minutes` is unrecognized; messages containing
a newline are unrecognized (`.` does not cross `\n`) and a message
containing a quote can be truncated at an earlier quote, so "every
message string X" is also false; and for `N` large enough that
`now + N minutes` passes `datetime.max` (here `N = 10^10` at `now = 0`)
the addition raises `OverflowError` rather than succeeding, so "for every
N ≥ 0 … succeeds" is also false. -/
theorem c5_pattern_a_counterexample :
    parse_reminder_text 0 (("remindme \"call mom\" in 10 minutes").toList) = .ok none ∧
    parse_reminder_text 0 (buildA ('a' :: '\n' :: ['b']) (decRepr 5)) = .ok none ∧
    parse_reminder_text 0 (buildA (("a\" in 3 minutes b").toList) (decRepr 5)) =
      .ok (some (['a'], 0 + 3 * minuteUsec)) ∧
    parse_reminder_text 0 (buildA (['x']) (decRepr 10000000000)) =
      .error .overflowError := by
  refine ⟨by rfl, by rfl, by rfl, by rfl⟩

/-! ## Pattern-B fire-time facts -/

/-- The pattern-B fire time is never before `now`: rolling only happens
from strictly-before-`now` instants, and adding a day lands strictly
after `now`. -/
theorem patternBFire_ge (now : Nat) (h m : Nat) : now ≤ patternBFire now h m := by
  show now ≤
    if replaceHM now h m < now then replaceHM now h m + dayUsec else replaceHM now h m
  simp only [replaceHM, dayUsec, hourUsec, minuteUsec]
  split <;> omega

/-- **C1 (amended).**  For every input on which pattern A fails and
pattern B matches with in-range fields `H:MM`, the parser returns the
message and a fire time that equals today at `H:MM` when that instant is
*at or after* the parse-time `now`, and is rolled forward exactly one day
only when today at `H:MM` is *strictly before* `now` (the source tests
`reminder_time < now`, so a fire time equal to `now` stays today). -/
theorem c1_roll_forward_boundary (now : Nat) (text msg : List Char) (h m : Nat)
    (hA : searchA text = none) (hB : searchB text = some (msg, h, m))
    (hh : h ≤ 23) (hm : m ≤ 59) :
    ∃ f, parse_reminder_text now text = .ok (some (msg, f)) ∧
      (now ≤ replaceHM now h m → f = replaceHM now h m) ∧
      (replaceHM now h m < now → f = replaceHM now h m + dayUsec) := by
  refine ⟨patternBFire now h m, ?_, ?_, ?_⟩
  · simp [parse_reminder_text, hA, hB, hh, hm]
  · intro hle
    simp [patternBFire, Nat.not_lt.mpr hle]
  · intro hlt
    simp [patternBFire, hlt]

/-- Witness for C1: `/remindme "standup" at 09:00` parsed at local time
09:05 yields tomorrow 09:00 (concrete scenario 2 of the spec). -/
theorem c1_roll_forward_boundary_witness :
    ∃ f, parse_reminder_text (9 * hourUsec + 5 * minuteUsec)
        (("/remindme \"standup\" at 09:00").toList) =
        .ok (some (("standup").toList, f)) ∧
      (9 * hourUsec + 5 * minuteUsec ≤
          replaceHM (9 * hourUsec + 5 * minuteUsec) 9 0 →
        f = replaceHM (9 * hourUsec + 5 * minuteUsec) 9 0) ∧
      (replaceHM (9 * hourUsec + 5 * minuteUsec) 9 0 <
          9 * hourUsec + 5 * minuteUsec →
        f = replaceHM (9 * hourUsec + 5 * minuteUsec) 9 0 + dayUsec) :=
  c1_roll_forward_boundary (9 * hourUsec + 5 * minuteUsec) _ _ 9 0
    (by rfl) (by rfl) (by omega) (by omega)

/-- **C1 counterexample.**  The claim rolls the equal-to-`now` case to
tomorrow; the code keeps it today: at exactly 09:30:00.000000 the command
`/remindme "standup" at 9:30` gets fire time `now` itself (today), not
`now + 1 day`.  Also, the claimed slash-less input form
`remindme "standup" at 9:30` is unrecognized (the regex requires
`/remindme`), so no fire time is returned for it at all. -/
theorem c1_roll_forward_counterexample :
    parse_reminder_text (9 * hourUsec + 30 * minuteUsec)
        (("/remindme \"standup\" at 9:30").toList) =
      .ok (some (("standup").toList, 9 * hourUsec + 30 * minuteUsec)) ∧
    replaceHM (9 * hourUsec + 30 * minuteUsec) 9 30 =
      9 * hourUsec + 30 * minuteUsec ∧
    9 * hourUsec + 30 * minuteUsec + dayUsec ≠ 9 * hourUsec + 30 * minuteUsec ∧
    parse_reminder_text (9 * hourUsec + 30 * minuteUsec)
        (("remindme \"standup\" at 9:30").toList) = .ok none := by
  exact ⟨by rfl, by rfl, by decide, by rfl⟩

/-- **C3 (code bug).**  The parser is not total: an in-grammar command
whose time fields are out of range matches the `\d{1,2}:\d{2}` regex and
then `datetime.replace` raises `ValueError`, contradicting both the spec
(such strings are "unrecognized") and the function's own docstring
("Returns (reminder_message, reminder_time) or None"). -/
theorem c3_parser_totality_code_bug :
    parse_reminder_text 0 (("/remindme \"X\" at 25:00").toList) = .error .valueError ∧
    parse_reminder_text 0 (("/remindme \"X\" at 9:75").toList) = .error .valueError :=
  ⟨rfl, rfl⟩

/-- **C6 (amended).**  Every successful parse returns a fire time at or
after the parse-time `now` (`now ≤ f`).  It is not always *strictly*
after: pattern A with `N = 0` and pattern B at the exact boundary minute
give `f = now`. -/
theorem c6_fire_time_not_past (now : Nat) (text msg : List Char) (f : Nat)
    (hp : parse_reminder_text now text = .ok (some (msg, f))) : now ≤ f := by
  cases hA : searchA text with
  | some r =>
      obtain ⟨m1, ds⟩ := r
      have hp2 : parse_reminder_text now text =
          if now + digitsVal ds * minuteUsec ≤ datetimeMaxUsec then
            .ok (some (m1, now + digitsVal ds * minuteUsec))
          else .error .overflowError := by
        unfold parse_reminder_text
        rw [hA]
      rw [hp2] at hp
      by_cases hb : now + digitsVal ds * minuteUsec ≤ datetimeMaxUsec
      · rw [if_pos hb] at hp
        simp only [Except.ok.injEq, Option.some.injEq, Prod.mk.injEq] at hp
        obtain ⟨-, hf⟩ := hp
        rw [← hf]
        exact Nat.le_add_right _ _
      · rw [if_neg hb] at hp
        simp at hp
  | none =>
      cases hB : searchB text with
      | none =>
          have hp2 : parse_reminder_text now text = .ok none := by
            unfold parse_reminder_text
            rw [hA, hB]
          rw [hp2] at hp
          simp at hp
      | some r =>
          obtain ⟨m1, hh, mm⟩ := r
          have hp2 : parse_reminder_text now text =
              if hh ≤ 23 ∧ mm ≤ 59 then .ok (some (m1, patternBFire now hh mm))
              else .error .valueError := by
            unfold parse_reminder_text
            rw [hA, hB]
          rw [hp2] at hp
          by_cases hv : hh ≤ 23 ∧ mm ≤ 59
          · rw [if_pos hv] at hp
            simp only [Except.ok.injEq, Option.some.injEq, Prod.mk.injEq] at hp
            obtain ⟨-, hf⟩ := hp
            rw [← hf]
            exact patternBFire_ge now hh mm
          · rw [if_neg hv] at hp
            simp at hp

/-- Witness for C6 at a concrete successful parse. -/
theorem c6_fire_time_not_past_witness :
    (0 : Nat) ≤ 0 + 3 * minuteUsec :=
  c6_fire_time_not_past 0 (("/remindme \"x\" in 3 minutes").toList) (['x'])
    (0 + 3 * minuteUsec) (by rfl)

/-- **C6 counterexample.**  `/remindme "x" in 0 minutes` parses
successfully with fire time exactly `now`, which is not strictly in the
future. -/
theorem c6_strictly_future_counterexample :
    parse_reminder_text 0 (("/remindme \"x\" in 0 minutes").toList) =
      .ok (some (['x'], 0)) ∧ ¬ (0 : Nat) < 0 :=
  ⟨rfl, by omega⟩

/-- **C4 (confirmed).**  `extractDue now` partitions the store: a reminder
is in the extracted list iff it was stored and `fireAt ≤ now`, is retained
iff it was stored and `fireAt > now`, the two parts together are a
permutation of the old store (nothing else changes), and a second run on
the retained store extracts nothing. -/
theorem c4_extract_due_partition (now : Nat) (rs : List Reminder) (r : Reminder) :
    (r ∈ (extractDue now rs).1 ↔ r ∈ rs ∧ r.fireAt ≤ now) ∧
    (r ∈ (extractDue now rs).2 ↔ r ∈ rs ∧ now < r.fireAt) ∧
    List.Perm ((extractDue now rs).1 ++ (extractDue now rs).2) rs ∧
    (extractDue now (extractDue now rs).2).1 = [] := by
  refine ⟨?_, ?_, ?_, ?_⟩
  · simp [extractDue, List.mem_filter]
  · simp [extractDue, List.mem_filter]
  · have hc : rs.filter (fun x => !decide (x.fireAt ≤ now)) =
        rs.filter (fun x => decide (now < x.fireAt)) := by
      apply List.filter_congr
      intro x _
      by_cases hx : x.fireAt ≤ now
      · have hx2 : ¬ now < x.fireAt := by omega
        simp [hx, hx2]
      · have hx2 : now < x.fireAt := by omega
        simp [hx, hx2]
    have h := List.filter_append_perm (fun x => decide (x.fireAt ≤ now)) rs
    rw [hc] at h
    exact h
  · simp only [extractDue, List.filter_filter]
    apply List.filter_eq_nil_iff.mpr
    intro a _
    simp only [Bool.and_eq_true, decide_eq_true_eq, not_and]
    omega

/-- The sample store used by the concrete endpoint theorems. -/
def sampleStore : List Reminder :=
  [{ fireAt := 5, text := ['x'], callbackUrl := ['u'], contextId := ['c'] }]

/-- An inbound request whose text parses as a reminder command but whose
configuration has `pushNotificationConfig = None`. -/
def requestNoCallback : JSONRPCRequest :=
  { id := "1", method := "message/send",
    params :=
      { message :=
          { role := "user",
            parts := [{ kind := PartKind.text,
                        text := some (("/remindme \"call mom\" in 10 minutes").toList) }],
            messageId := "m1" },
        contextId := ("ctx-1").toList,
        configuration := { blocking := true, pushNotificationConfig := none } } }

/-- The same request but with a push config carrying an empty URL
(the only falsy value `str` admits for `url`). -/
def requestEmptyUrl : JSONRPCRequest :=
  { id := "1", method := "message/send",
    params :=
      { message :=
          { role := "user",
            parts := [{ kind := PartKind.text,
                        text := some (("/remindme \"call mom\" in 10 minutes").toList) }],
            messageId := "m1" },
        contextId := ("ctx-1").toList,
        configuration := { blocking := true,
                           pushNotificationConfig := some { url := [], token := none } } } }

/-- **C2 (code bug).**  With a parsed reminder command and no
`pushNotificationConfig` at all, line 235 dereferences `None`
(`configuration.pushNotificationConfig.url`) *before* the
`if not push_url` guard, so the request raises `AttributeError` instead
of returning the explanatory failure reply the guard was written to
produce (the store is still unchanged).  The guard itself is reachable
only for a present config with an empty URL string, where the handler
does behave as the claim says. -/
theorem c2_missing_callback_code_bug :
    a2a_endpoint 0 requestNoCallback sampleStore = (.error .attributeError, sampleStore) ∧
    a2a_endpoint 0 requestEmptyUrl sampleStore =
      (.ok (mkResponse requestEmptyUrl missingUrlText), sampleStore) :=
  ⟨rfl, rfl⟩

/-- **C9 (confirmed).**  When the extracted text matches neither pattern,
the handler replies with the fixed usage-help text (listing the two
supported command shapes) and the store is unchanged. -/
theorem c9_usage_help_frame (now : Nat) (req : JSONRPCRequest) (store : List Reminder)
    (text : List Char) (hx : extract_text req.params.message.parts = .ok text)
    (hp : parse_reminder_text now text = .ok none) :
    a2a_endpoint now req store = (.ok (mkResponse req helpText), store) := by
  have h1 : a2a_endpoint now req store =
      (match parse_reminder_text now text with
       | .error e => (.error e, store)
       | .ok (some (message_text, reminder_time)) =>
           match req.params.configuration.pushNotificationConfig with
           | none => (.error .attributeError, store)
           | some cfg =>
               if cfg.url = [] then (.ok (mkResponse req missingUrlText), store)
               else (.ok (mkResponse req (confirmText message_text reminder_time)),
                     store ++ [{ fireAt := reminder_time, text := message_text,
                                 callbackUrl := cfg.url,
                                 contextId := req.params.contextId }])
       | .ok none => (.ok (mkResponse req helpText), store)) := by
    unfold a2a_endpoint
    rw [hx]
  rw [h1, hp]

/-- A request whose text is `hello there` (concrete scenario 3). -/
def requestHello : JSONRPCRequest :=
  { id := "2", method := "message/send",
    params :=
      { message :=
          { role := "user",
            parts := [{ kind := PartKind.text, text := some (("hello there").toList) }],
            messageId := "m2" },
        contextId := ("ctx-2").toList,
        configuration := { blocking := true, pushNotificationConfig := none } } }

/-- Witness for C9 on `hello there`. -/
theorem c9_usage_help_frame_witness :
    a2a_endpoint 0 requestHello sampleStore =
      (.ok (mkResponse requestHello helpText), sampleStore) :=
  c9_usage_help_frame 0 requestHello sampleStore (("hello there").toList) rfl rfl

/-- **C7 (confirmed).**  A non-2xx response or a transport failure is
only logged: the dispatcher returns normally (the `except Exception`
clause swallows the error, so nothing reaches `check_reminders`), and the
store is exactly what it was — the reminder is not re-enqueued. -/
theorem c7_failed_delivery_no_retry (freshId : String) (s : Nat)
    (url ctx msg : List Char) (store : List Reminder)
    (hs : ¬ (200 ≤ s ∧ s < 300)) :
    (send_reminder_message true freshId (.response s) url ctx msg store).2 =
      (.pushRejected s, store) ∧
    (send_reminder_message true freshId .transportError url ctx msg store).2 =
      (.transportFailed, store) := by
  constructor
  · simp [send_reminder_message, hs]
  · simp [send_reminder_message]

/-- Witness for C7 at HTTP 500 (concrete scenario 5). -/
theorem c7_failed_delivery_no_retry_witness :
    (send_reminder_message true "rid-1" (.response 500) ['u'] ['c'] ['m']
        sampleStore).2 = (.pushRejected 500, sampleStore) ∧
    (send_reminder_message true "rid-1" .transportError ['u'] ['c'] ['m']
        sampleStore).2 = (.transportFailed, sampleStore) :=
  c7_failed_delivery_no_retry "rid-1" 500 ['u'] ['c'] ['m'] sampleStore (by omega)

/-- **C8 (confirmed).**  Whatever the transaction outcome, the POST the
dispatcher attempts carries: the reminder's context id unchanged, the
freshly generated request id, the fixed `message/push` discriminator,
`jsonrpc = "2.0"`, an agent message whose single text part is the
reminder text prefixed with the fixed `🔔 REMINDER: ` marker, and a
10-second timeout, addressed to the reminder's callback URL. -/
theorem c8_outbound_envelope (freshId : String) (outcome : PostOutcome)
    (url ctx msg : List Char) (store : List Reminder) :
    ∃ post, (send_reminder_message true freshId outcome url ctx msg store).1 = some post ∧
      post.url = url ∧ post.timeoutSeconds = 10 ∧
      post.body.jsonrpc = "2.0" ∧ post.body.id = freshId ∧
      post.body.method = "message/push" ∧
      post.body.params.contextId = ctx ∧
      post.body.params.message.role = "agent" ∧
      post.body.params.message.parts =
        [{ kind := PartKind.text, text := some (reminderMarker ++ msg) }] := by
  refine ⟨{ url := url, timeoutSeconds := 10,
            body := { jsonrpc := "2.0", id := freshId, method := "message/push",
                      params := { contextId := ctx,
                                  message := { role := "agent",
                                               parts := [{ kind := PartKind.text,
                                                           text := some (reminderMarker ++ msg) }],
                                               messageId := "" } } } },
    ?_, rfl, rfl, rfl, rfl, rfl, rfl, rfl, rfl⟩
  cases outcome with
  | response s =>
      by_cases hs : 200 ≤ s ∧ s < 300 <;> simp [send_reminder_message, hs]
  | transportError => simp [send_reminder_message]

/-! ## Append monotonicity of the matchers

`re.search` on surrounded text: a successful attempt stays successful when
the input is extended on the right, because every sub-matcher either does
not look past the consumed part or (the greedy runs, the optional `s`) can
only extend its consumption without failing. -/

/-- A case-insensitive literal match survives extending the input. -/
theorem matchLitCI_append (ps : List Char) :
    ∀ s q r, matchLitCI ps s = some r → matchLitCI ps (s ++ q) = some (r ++ q) := by
  induction ps with
  | nil =>
      intro s q r h
      simp only [matchLitCI, Option.some.injEq] at h
      subst h
      rfl
  | cons p ps ih =>
      intro s q r h
      cases s with
      | nil => simp [matchLitCI] at h
      | cons c cs =>
          simp only [matchLitCI] at h
          by_cases hc : c.toLower = p
          · rw [if_pos hc] at h
            show matchLitCI (p :: ps) (c :: (cs ++ q)) = some (r ++ q)
            simp only [matchLitCI]
            rw [if_pos hc]
            exact ih cs q r h
          · rw [if_neg hc] at h
            cases h

/-- If `dropWhile` leaves a nonempty remainder, that head survives
extending the list. -/
theorem dropWhile_append_cons {α : Type} (p : α → Bool) :
    ∀ (xs : List α) c r q, xs.dropWhile p = c :: r →
      (xs ++ q).dropWhile p = c :: (r ++ q) := by
  intro xs
  induction xs with
  | nil => intro c r q h; simp [List.dropWhile] at h
  | cons x xs ih =>
      intro c r q h
      by_cases hx : p x
      · rw [List.dropWhile_cons_of_pos hx] at h
        rw [List.cons_append, List.dropWhile_cons_of_pos hx]
        exact ih c r q h
      · rw [List.dropWhile_cons_of_neg hx] at h
        rw [List.cons_append, List.dropWhile_cons_of_neg hx]
        injection h with h1 h2
        subst h1
        subst h2
        rfl
  
/-- If `dropWhile` leaves a nonempty remainder, `takeWhile` is unchanged
by extending the list. -/
theorem takeWhile_append_stable {α : Type} (p : α → Bool) :
    ∀ (xs : List α) c r q, xs.dropWhile p = c :: r →
      (xs ++ q).takeWhile p = xs.takeWhile p := by
  intro xs
  induction xs with
  | nil => intro c r q h; simp [List.dropWhile] at h
  | cons x xs ih =>
      intro c r q h
      by_cases hx : p x
      · rw [List.dropWhile_cons_of_pos hx] at h
        rw [List.cons_append, List.takeWhile_cons_of_pos hx, List.takeWhile_cons_of_pos hx,
          ih c r q h]
      · rw [List.cons_append, List.takeWhile_cons_of_neg hx, List.takeWhile_cons_of_neg hx]

/-- `\s+` with a nonempty remainder survives extending the input. -/
theorem matchSpaces1_append (s q r : List Char) (h : matchSpaces1 s = some r)
    (hr : r ≠ []) : matchSpaces1 (s ++ q) = some (r ++ q) := by
  cases s with
  | nil => simp [matchSpaces1] at h
  | cons c cs =>
      simp only [matchSpaces1] at h
      by_cases hc : pySpace c = true
      · rw [if_pos hc] at h
        simp only [Option.some.injEq] at h
        obtain ⟨c0, r0, rfl⟩ : ∃ c0 r0, r = c0 :: r0 := by
          cases r with
          | nil => exact absurd rfl hr
          | cons c0 r0 => exact ⟨c0, r0, rfl⟩
        show matchSpaces1 (c :: (cs ++ q)) = _
        simp only [matchSpaces1]
        rw [if_pos hc]
        rw [dropWhile_append_cons pySpace cs c0 r0 q h]
        rfl
      · rw [if_neg hc] at h
        cases h

/-- `(\d+)` with a nonempty remainder survives extending the input,
keeping the same captured digits. -/
theorem matchDigits1_append (s q ds r : List Char)
    (h : matchDigits1 s = some (ds, r)) (hr : r ≠ []) :
    matchDigits1 (s ++ q) = some (ds, r ++ q) := by
  cases s with
  | nil => simp [matchDigits1] at h
  | cons c cs =>
      simp only [matchDigits1] at h
      by_cases hc : pyDigit c = true
      · rw [if_pos hc] at h
        simp only [Option.some.injEq, Prod.mk.injEq] at h
        obtain ⟨hds, hrr⟩ := h
        obtain ⟨c0, r0, rfl⟩ : ∃ c0 r0, r = c0 :: r0 := by
          cases r with
          | nil => exact absurd rfl hr
          | cons c0 r0 => exact ⟨c0, r0, rfl⟩
        show matchDigits1 (c :: (cs ++ q)) = _
        simp only [matchDigits1]
        rw [if_pos hc]
        rw [show c :: (cs ++ q) = (c :: cs) ++ q from rfl,
          takeWhile_append_stable pyDigit (c :: cs) c0 r0 q hrr,
          dropWhile_append_cons pyDigit (c :: cs) c0 r0 q hrr, hds]
        rfl
      · rw [if_neg hc] at h
        cases h
  
/-- `(\d{2})` survives extending the input. -/
theorem matchTwoDigits_append (s q : List Char) (m : Nat)
    (h : matchTwoDigits s = some m) : matchTwoDigits (s ++ q) = some m := by
  match s with
  | [] => simp [matchTwoDigits] at h
  | [c1] => simp [matchTwoDigits] at h
  | c1 :: c2 :: rest => exact h

/-- `(\d{1,2}):` survives extending the input, keeping the captured
hour. -/
theorem matchHour_append (s q : List Char) (h : Nat) (r : List Char)
    (hv : matchHour s = some (h, r)) : matchHour (s ++ q) = some (h, r ++ q) := by
  match s with
  | [] => simp [matchHour] at hv
  | [c1] => simp [matchHour] at hv
  | c1 :: c2 :: rest2 =>
      simp only [matchHour] at hv
      by_cases h1 : pyDigit c1 = true
      · rw [if_pos h1] at hv
        by_cases h2 : pyDigit c2 = true
        · rw [if_pos h2] at hv
          match rest2 with
          | [] => cases hv
          | c3 :: r' =>
              have hv2 : (if c3 = ':' then
                  some (digitVal c1 * 10 + digitVal c2, r') else none) = some (h, r) := hv
              by_cases h3 : c3 = ':'
              · rw [if_pos h3] at hv2
                injection hv2 with hv'
                injection hv' with hh hr
                subst hh
                subst hr
                show matchHour (c1 :: c2 :: c3 :: (r' ++ q)) = _
                simp only [matchHour]
                rw [if_pos h1, if_pos h2, if_pos h3]
              · rw [if_neg h3] at hv2
                cases hv2
        · rw [if_neg h2] at hv
          by_cases hc2 : c2 = ':'
          · rw [if_pos hc2] at hv
            injection hv with hv'
            injection hv' with hh hr
            subst hh
            subst hr
            show matchHour (c1 :: c2 :: (rest2 ++ q)) = _
            simp only [matchHour]
            rw [if_pos h1, if_neg h2, if_pos hc2]
          · rw [if_neg hc2] at hv
            cases hv
      · rw [if_neg h1] at hv
        cases hv

/-- The lazy message scan survives extending the input, provided the tail
pattern does: the captured message may change (a candidate closing quote
whose tail previously failed can now succeed), but some match exists. -/
theorem scanMsg_append {α : Type} (tail : List Char → Option α)
    (hmono : ∀ t q a, tail t = some a → ∃ a', tail (t ++ q) = some a') :
    ∀ s q msg a, scanMsg tail s = some (msg, a) →
      ∃ msg' a', scanMsg tail (s ++ q) = some (msg', a') := by
  intro s
  induction s with
  | nil => intro q msg a h; simp [scanMsg] at h
  | cons c cs ih =>
      intro q msg a h
      simp only [scanMsg] at h
      by_cases hc : c = '\"'
      · rw [if_pos hc] at h
        cases ht : tail cs with
        | some a0 =>
            obtain ⟨a', ha'⟩ := hmono cs q a0 ht
            refine ⟨[], a', ?_⟩
            show scanMsg tail (c :: (cs ++ q)) = some ([], a')
            simp only [scanMsg]
            rw [if_pos hc, ha']
        | none =>
            rw [ht] at h
            cases hs : scanMsg tail cs with
            | none => rw [hs] at h; cases h
            | some p =>
                obtain ⟨m0, a0⟩ := p
                cases ht' : tail (cs ++ q) with
                | some a1 =>
                    refine ⟨[], a1, ?_⟩
                    show scanMsg tail (c :: (cs ++ q)) = some ([], a1)
                    simp only [scanMsg]
                    rw [if_pos hc, ht']
                | none =>
                    obtain ⟨m', a', hs'⟩ := ih q m0 a0 hs
                    refine ⟨c :: m', a', ?_⟩
                    show scanMsg tail (c :: (cs ++ q)) = some (c :: m', a')
                    simp only [scanMsg]
                    rw [if_pos hc, ht', hs']
      · rw [if_neg hc] at h
        by_cases hn : c = '\n'
        · rw [if_pos hn] at h
          cases h
        · rw [if_neg hn] at h
          cases hs : scanMsg tail cs with
          | none => rw [hs] at h; cases h
          | some p =>
              obtain ⟨m0, a0⟩ := p
              obtain ⟨m', a', hs'⟩ := ih q m0 a0 hs
              refine ⟨c :: m', a', ?_⟩
              show scanMsg tail (c :: (cs ++ q)) = some (c :: m', a')
              simp only [scanMsg]
              rw [if_neg hc, if_neg hn, hs']

/-- The pattern-A tail survives extending the input, with the same
captured digit group (the digit run is always followed by `\s` inside the
consumed part). -/
theorem matchTailA_append (s q ds : List Char) (hv : matchTailA s = some ds) :
    matchTailA (s ++ q) = some ds := by
  unfold matchTailA at hv ⊢
  cases h1 : matchSpaces1 s with
  | none => rw [h1] at hv; cases hv
  | some s1 =>
      rw [h1, Option.some_bind] at hv
      cases h2 : matchLitCI ['i', 'n'] s1 with
      | none => rw [h2] at hv; cases hv
      | some s2 =>
          rw [h2, Option.some_bind] at hv
          cases h3 : matchSpaces1 s2 with
          | none => rw [h3] at hv; cases hv
          | some s3 =>
              rw [h3, Option.some_bind] at hv
              cases h4 : matchDigits1 s3 with
              | none => rw [h4] at hv; cases hv
              | some dss =>
                  obtain ⟨ds4, s4⟩ := dss
                  rw [h4, Option.some_bind] at hv
                  dsimp only at hv
                  cases h5 : matchSpaces1 s4 with
                  | none => rw [h5] at hv; cases hv
                  | some s5 =>
                      rw [h5, Option.some_bind] at hv
                      cases h6 : matchLitCI ['m', 'i', 'n', 'u', 't', 'e'] s5 with
                      | none => rw [h6] at hv; cases hv
                      | some s6 =>
                          rw [h6, Option.some_bind] at hv
                          injection hv with hds
                          have hne1 : s1 ≠ [] := by
                            intro he; subst he; simp [matchLitCI] at h2
                          have hne3 : s3 ≠ [] := by
                            intro he; subst he; simp [matchDigits1] at h4
                          have hne4 : s4 ≠ [] := by
                            intro he; subst he; simp [matchSpaces1] at h5
                          have hne5 : s5 ≠ [] := by
                            intro he; subst he; simp [matchLitCI] at h6
                          rw [matchSpaces1_append s q s1 h1 hne1, Option.some_bind,
                            matchLitCI_append ['i', 'n'] s1 q s2 h2, Option.some_bind,
                            matchSpaces1_append s2 q s3 h3 hne3, Option.some_bind,
                            matchDigits1_append s3 q ds4 s4 h4 hne4, Option.some_bind]
                          dsimp only
                          rw [matchSpaces1_append s4 q s5 h5 hne5, Option.some_bind,
                            matchLitCI_append ['m', 'i', 'n', 'u', 't', 'e'] s5 q s6 h6,
                            Option.some_bind, hds]

/-- The pattern-B tail survives extending the input, with the same hour
and minute values. -/
theorem matchTailB_append (s q : List Char) (hm : Nat × Nat)
    (hv : matchTailB s = some hm) : matchTailB (s ++ q) = some hm := by
  unfold matchTailB at hv ⊢
  cases h1 : matchSpaces1 s with
  | none => rw [h1] at hv; cases hv
  | some s1 =>
      rw [h1, Option.some_bind] at hv
      cases h2 : matchLitCI ['a', 't'] s1 with
      | none => rw [h2] at hv; cases hv
      | some s2 =>
          rw [h2, Option.some_bind] at hv
          cases h3 : matchSpaces1 s2 with
          | none => rw [h3] at hv; cases hv
          | some s3 =>
              rw [h3, Option.some_bind] at hv
              cases h4 : matchHour s3 with
              | none => rw [h4] at hv; cases hv
              | some hs4 =>
                  obtain ⟨hr, s4⟩ := hs4
                  rw [h4, Option.some_bind] at hv
                  dsimp only at hv
                  cases h5 : matchTwoDigits s4 with
                  | none => rw [h5] at hv; cases hv
                  | some m =>
                      rw [h5, Option.some_bind] at hv
                      injection hv with hhm
                      have hne1 : s1 ≠ [] := by
                        intro he; subst he; simp [matchLitCI] at h2
                      have hne3 : s3 ≠ [] := by
                        intro he; subst he; simp [matchHour] at h4
                      rw [matchSpaces1_append s q s1 h1 hne1, Option.some_bind,
                        matchLitCI_append ['a', 't'] s1 q s2 h2, Option.some_bind,
                        matchSpaces1_append s2 q s3 h3 hne3, Option.some_bind,
                        matchHour_append s3 q hr s4 h4, Option.some_bind]
                      dsimp only
                      rw [matchTwoDigits_append s4 q m h5, Option.some_bind, hhm]

/-- A pattern-A attempt that succeeds still succeeds on extended input
(the captures may differ). -/
theorem tryAtA_append (s q : List Char) (r : List Char × List Char)
    (hv : tryAtA s = some r) : ∃ r', tryAtA (s ++ q) = some r' := by
  unfold tryAtA at hv ⊢
  cases h1 : matchLitCI ['/', 'r', 'e', 'm', 'i', 'n', 'd', 'm', 'e'] s with
  | none => rw [h1] at hv; cases hv
  | some s1 =>
      rw [h1, Option.some_bind] at hv
      cases h2 : matchSpaces1 s1 with
      | none => rw [h2] at hv; cases hv
      | some s2 =>
          rw [h2, Option.some_bind] at hv
          cases s2 with
          | nil => cases hv
          | cons c s3 =>
              have hv2 : (if c = '\"' then scanMsg matchTailA s3 else none) = some r := hv
              by_cases hc : c = '\"'
              · rw [if_pos hc] at hv2
                obtain ⟨msg, a⟩ := r
                obtain ⟨m', a', hs'⟩ := scanMsg_append matchTailA
                  (fun t q' a' h => ⟨a', matchTailA_append t q' a' h⟩) s3 q msg a hv2
                refine ⟨(m', a'), ?_⟩
                rw [matchLitCI_append ['/', 'r', 'e', 'm', 'i', 'n', 'd', 'm', 'e'] s q s1 h1,
                  Option.some_bind,
                  matchSpaces1_append s1 q (c :: s3) h2 (by simp), Option.some_bind]
                show (if c = '\"' then scanMsg matchTailA (s3 ++ q) else none) = some (m', a')
                rw [if_pos hc, hs']
              · rw [if_neg hc] at hv2
                cases hv2

/-- A pattern-B attempt that succeeds still succeeds on extended input. -/
theorem tryAtB_append (s q : List Char) (r : List Char × Nat × Nat)
    (hv : tryAtB s = some r) : ∃ r', tryAtB (s ++ q) = some r' := by
  unfold tryAtB at hv ⊢
  cases h1 : matchLitCI ['/', 'r', 'e', 'm', 'i', 'n', 'd', 'm', 'e'] s with
  | none => rw [h1] at hv; cases hv
  | some s1 =>
      rw [h1, Option.some_bind] at hv
      cases h2 : matchSpaces1 s1 with
      | none => rw [h2] at hv; cases hv
      | some s2 =>
          rw [h2, Option.some_bind] at hv
          cases s2 with
          | nil => cases hv
          | cons c s3 =>
              have hv2 : (if c = '\"' then scanMsg matchTailB s3 else none) = some r := hv
              by_cases hc : c = '\"'
              · rw [if_pos hc] at hv2
                obtain ⟨msg, a⟩ := r
                obtain ⟨m', a', hs'⟩ := scanMsg_append matchTailB
                  (fun t q' a' h => ⟨a', matchTailB_append t q' a' h⟩) s3 q msg a hv2
                refine ⟨(m', a'), ?_⟩
                rw [matchLitCI_append ['/', 'r', 'e', 'm', 'i', 'n', 'd', 'm', 'e'] s q s1 h1,
                  Option.some_bind,
                  matchSpaces1_append s1 q (c :: s3) h2 (by simp), Option.some_bind]
                show (if c = '\"' then scanMsg matchTailB (s3 ++ q) else none) = some (m', a')
                rw [if_pos hc, hs']
              · rw [if_neg hc] at hv2
                cases hv2

/-- A successful pattern-A search survives appending on the right. -/
theorem searchA_append (s q : List Char) (r : List Char × List Char)
    (hv : searchA s = some r) : ∃ r', searchA (s ++ q) = some r' := by
  induction s generalizing r with
  | nil => simp [searchA] at hv
  | cons c cs ih =>
      have hstep : searchA (c :: cs) =
          match tryAtA (c :: cs) with
          | some r0 => some r0
          | none => searchA cs := rfl
      have hstep2 : searchA ((c :: cs) ++ q) =
          match tryAtA (c :: (cs ++ q)) with
          | some r0 => some r0
          | none => searchA (cs ++ q) := rfl
      rw [hstep] at hv
      cases ht : tryAtA (c :: cs) with
      | some r0 =>
          obtain ⟨r', h'⟩ := tryAtA_append (c :: cs) q r0 ht
          refine ⟨r', ?_⟩
          rw [hstep2, show (c :: (cs ++ q)) = (c :: cs) ++ q from rfl, h']
      | none =>
          rw [ht] at hv
          cases ht2 : tryAtA (c :: (cs ++ q)) with
          | some r2 => exact ⟨r2, by rw [hstep2, ht2]⟩
          | none =>
              obtain ⟨r', h'⟩ := ih r hv
              exact ⟨r', by rw [hstep2, ht2]; exact h'⟩

/-- A successful pattern-A search survives prepending on the left. -/
theorem searchA_prepend (p t : List Char) (r : List Char × List Char)
    (hv : searchA t = some r) : ∃ r', searchA (p ++ t) = some r' := by
  induction p with
  | nil => exact ⟨r, hv⟩
  | cons c p' ih =>
      obtain ⟨r', h'⟩ := ih
      have hstep : searchA ((c :: p') ++ t) =
          match tryAtA (c :: (p' ++ t)) with
          | some r0 => some r0
          | none => searchA (p' ++ t) := rfl
      cases ht : tryAtA (c :: (p' ++ t)) with
      | some r2 => exact ⟨r2, by rw [hstep, ht]⟩
      | none => exact ⟨r', by rw [hstep, ht]; exact h'⟩

/-- A successful pattern-B search survives appending on the right. -/
theorem searchB_append (s q : List Char) (r : List Char × Nat × Nat)
    (hv : searchB s = some r) : ∃ r', searchB (s ++ q) = some r' := by
  induction s generalizing r with
  | nil => simp [searchB] at hv
  | cons c cs ih =>
      have hstep : searchB (c :: cs) =
          match tryAtB (c :: cs) with
          | some r0 => some r0
          | none => searchB cs := rfl
      have hstep2 : searchB ((c :: cs) ++ q) =
          match tryAtB (c :: (cs ++ q)) with
          | some r0 => some r0
          | none => searchB (cs ++ q) := rfl
      rw [hstep] at hv
      cases ht : tryAtB (c :: cs) with
      | some r0 =>
          obtain ⟨r', h'⟩ := tryAtB_append (c :: cs) q r0 ht
          refine ⟨r', ?_⟩
          rw [hstep2, show (c :: (cs ++ q)) = (c :: cs) ++ q from rfl, h']
      | none =>
          rw [ht] at hv
          cases ht2 : tryAtB (c :: (cs ++ q)) with
          | some r2 => exact ⟨r2, by rw [hstep2, ht2]⟩
          | none =>
              obtain ⟨r', h'⟩ := ih r hv
              exact ⟨r', by rw [hstep2, ht2]; exact h'⟩

/-- A successful pattern-B search survives prepending on the left. -/
theorem searchB_prepend (p t : List Char) (r : List Char × Nat × Nat)
    (hv : searchB t = some r) : ∃ r', searchB (p ++ t) = some r' := by
  induction p with
  | nil => exact ⟨r, hv⟩
  | cons c p' ih =>
      obtain ⟨r', h'⟩ := ih
      have hstep : searchB ((c :: p') ++ t) =
          match tryAtB (c :: (p' ++ t)) with
          | some r0 => some r0
          | none => searchB (p' ++ t) := rfl
      cases ht : tryAtB (c :: (p' ++ t)) with
      | some r2 => exact ⟨r2, by rw [hstep, ht]⟩
      | none => exact ⟨r', by rw [hstep, ht]; exact h'⟩

/-- **C10 (amended).**  Because matching is a substring search, embedding
a successfully parsed command in arbitrary surrounding text never makes
the parser return "unrecognized": some match is still found.  The claim's
stronger conclusion — that the result is the *same* — is false (the
surrounding text can supply an earlier match, which may even carry an
out-of-range time and raise `ValueError`), so the conclusion here is only
that the outcome is never `None`. -/
theorem c10_surrounding_text (now now' : Nat) (s p q msg : List Char) (f : Nat)
    (h : parse_reminder_text now s = .ok (some (msg, f))) :
    parse_reminder_text now' (p ++ s ++ q) ≠ .ok none := by
  cases hA : searchA s with
  | some r =>
      obtain ⟨r1, h1⟩ := searchA_append s q r hA
      obtain ⟨r2, h2⟩ := searchA_prepend p (s ++ q) r1 h1
      have hx : searchA (p ++ s ++ q) = some r2 := by
        rw [List.append_assoc]
        exact h2
      obtain ⟨m2, ds2⟩ := r2
      have hp2 : parse_reminder_text now' (p ++ s ++ q) =
          if now' + digitsVal ds2 * minuteUsec ≤ datetimeMaxUsec then
            .ok (some (m2, now' + digitsVal ds2 * minuteUsec))
          else .error .overflowError := by
        unfold parse_reminder_text
        rw [hx]
      rw [hp2]
      split <;> simp
  | none =>
      cases hB : searchB s with
      | none =>
          have hps : parse_reminder_text now s = .ok none := by
            unfold parse_reminder_text
            rw [hA, hB]
          rw [hps] at h
          simp at h
      | some rb =>
          cases hA2 : searchA (p ++ s ++ q) with
          | some ra =>
              obtain ⟨m2, ds2⟩ := ra
              have hp2 : parse_reminder_text now' (p ++ s ++ q) =
                  if now' + digitsVal ds2 * minuteUsec ≤ datetimeMaxUsec then
                    .ok (some (m2, now' + digitsVal ds2 * minuteUsec))
                  else .error .overflowError := by
                unfold parse_reminder_text
                rw [hA2]
              rw [hp2]
              split <;> simp
          | none =>
              obtain ⟨rb1, hb1⟩ := searchB_append s q rb hB
              obtain ⟨rb2, hb2⟩ := searchB_prepend p (s ++ q) rb1 hb1
              have hx : searchB (p ++ s ++ q) = some rb2 := by
                rw [List.append_assoc]
                exact hb2
              obtain ⟨m2, hh2, mm2⟩ := rb2
              have hp2 : parse_reminder_text now' (p ++ s ++ q) =
                  if hh2 ≤ 23 ∧ mm2 ≤ 59 then
                    .ok (some (m2, patternBFire now' hh2 mm2))
                  else .error .valueError := by
                unfold parse_reminder_text
                rw [hA2, hx]
              rw [hp2]
              by_cases hval : hh2 ≤ 23 ∧ mm2 ≤ 59
              · rw [if_pos hval]
                simp
              · rw [if_neg hval]
                simp

/-- Witness for C10 with a command surrounded by junk on both sides. -/
theorem c10_surrounding_text_witness :
    parse_reminder_text 0
      ((("xx ").toList) ++ (("/remindme \"a\" in 5 minutes").toList) ++ ((" yy").toList)) ≠
      .ok none :=
  c10_surrounding_text 0 0 (("/remindme \"a\" in 5 minutes").toList)
    (("xx ").toList) ((" yy").toList) ['a'] (0 + 5 * minuteUsec) rfl

/-- **C10 counterexample.**  Surrounding text can change the result: a
prefix containing its own command wins the leftmost search, and a prefix
with an out-of-range time makes the parse raise instead of succeed.  So
"also succeeds with the same embedded command's result" is false. -/
theorem c10_surrounding_text_counterexample :
    parse_reminder_text 0 (("/remindme \"a\" in 5 minutes").toList) =
      .ok (some (['a'], 0 + 5 * minuteUsec)) ∧
    parse_reminder_text 0 ((("/remindme \"b\" in 7 minutes ").toList) ++
        (("/remindme \"a\" in 5 minutes").toList) ++ ([] : List Char)) =
      .ok (some (['b'], 0 + 7 * minuteUsec)) ∧
    (some ((['b'] : List Char), 0 + 7 * minuteUsec) ≠ some (['a'], 0 + 5 * minuteUsec)) ∧
    parse_reminder_text 0 (("/remindme \"a\" at 9:30").toList) =
      .ok (some (['a'], 9 * hourUsec + 30 * minuteUsec)) ∧
    parse_reminder_text 0 ((("/remindme \"x\" at 99:10 ").toList) ++
        (("/remindme \"a\" at 9:30").toList) ++ ([] : List Char)) = .error .valueError :=
  ⟨rfl, rfl, by decide, rfl, rfl⟩
